import Mathlib

/-
  Verification of the penrose-analytics-tracker event-delivery pipeline and
  page-lifecycle engine.

  Shallow embedding of:
  - EventQueue (src/EventQueue.ts): FIFO buffer with retry/backoff and
    localStorage spooling;
  - PageStateManager (src/PageStateManager.ts): lifecycle/idle/scroll state
    machine;
  - Tracker (src/Tracker.ts): orchestration layer, unload finalization.

  Conventions of the embedding:
  - Event ids are Nat (the source uses opaque strings generated from
    Date.now() plus randomness; only identity matters here).
  - The transport (APIClient.sendEvent) is modelled as an oracle
    tr : Nat -> Nat -> Bool giving, for an event id and the event's current
    retry counter, whether that delivery attempt resolves (true) or rejects
    (false).  This mirrors the jest mocks that drive the tests.
  - Timestamps are logical: the drain loop of process() never awaits a
    timer, so every attempt it makes carries the current clock value;
    scheduled retry timers are recorded (absolute fire times) but their
    callbacks only run after the drain ends, when `processing` is false,
    and are then no-ops, so they do not change the queue state.
  - localStorage is a single key holding either a parseable snapshot or
    malformed text; JSON.parse failure is an Except.error handled exactly
    where the source catches it.
-/

namespace Penrose

/-- QueuedEvent from src/types.ts: id, endpoint, data payload, creation
timestamp, retry counter. -/
structure QueuedEvent where
  id : Nat
  endpoint : String
  data : String
  timestamp : Nat
  retries : Nat
deriving DecidableEq

/-- Content found under the localStorage key: a parseable JSON array of
events, or malformed text (JSON.parse throws on it). -/
inductive StorageContent where
  | valid (events : List QueuedEvent)
  | malformed
deriving DecidableEq

/-- Warnings emitted via console.warn that the claims talk about. -/
inductive Warning where
  | failedAfterRetries (eventId maxRetries : Nat)
  | corruptedSnapshot
deriving DecidableEq

/-- One call of apiClient.sendEvent as observed by the transport:
which event, the retry counter it carried at that moment, whether the
attempt resolved, and the logical time at which it was issued. -/
structure Attempt where
  eventId : Nat
  retriesAtAttempt : Nat
  success : Bool
  time : Nat
deriving DecidableEq

namespace EventQueue

/-- State of one EventQueue instance together with its observable
environment: the in-memory queue, the localStorage key, the transport
trace, the scheduled retry timers (absolute fire times), the warnings
emitted, and the current logical clock. -/
structure State where
  queue : List QueuedEvent
  storage : Option StorageContent
  trace : List Attempt
  timers : List Nat
  warns : List Warning
  now : Nat
deriving DecidableEq

/-- DEFAULT_MAX_RETRIES = 3. -/
def DEFAULT_MAX_RETRIES : Nat := 3

/-- RETRY_DELAYS = [1000, 2000, 4000]  (1s, 2s, 4s). -/
def RETRY_DELAYS : List Nat := [1000, 2000, 4000]

/-- `RETRY_DELAYS[event.retries - 1] || RETRY_DELAYS[RETRY_DELAYS.length - 1]`:
an out-of-range index yields undefined, so the last entry is reused. -/
def retryDelay (retries : Nat) : Nat :=
  (RETRY_DELAYS.get? (retries - 1)).getD
    ((RETRY_DELAYS.get? (RETRY_DELAYS.length - 1)).getD 0)

/-- saveToLocalStorage: `localStorage.setItem(STORAGE_KEY, JSON.stringify(this.queue))`
(storage available and within quota). -/
def saveToLocalStorage (s : State) : State :=
  { s with storage := some (.valid s.queue) }

/-- retry(event): increment the event's retry counter; if it reached
maxRetries, warn, shift the event off the queue and save the (remaining)
queue to localStorage; otherwise keep the event at the head and schedule a
backoff timer.  `e` is the head of the queue and `rest` its tail. -/
def retry (m : Nat) (e : QueuedEvent) (rest : List QueuedEvent) (s : State) : State :=
  let r := e.retries + 1
  if m ≤ r then
    saveToLocalStorage
      { s with queue := rest,
               warns := s.warns ++ [.failedAfterRetries e.id m] }
  else
    { s with queue := { e with retries := r } :: rest,
             timers := s.timers ++ [s.now + retryDelay r] }

/-- processNext(): attempt delivery of the head event; on success shift it
off the queue; on rejection hand it to retry.  Empty queue: return. -/
def processNext (tr : Nat → Nat → Bool) (m : Nat) (s : State) : State :=
  match s.queue with
  | [] => s
  | e :: rest =>
    if tr e.id e.retries then
      { s with queue := rest,
               trace := s.trace ++ [⟨e.id, e.retries, true, s.now⟩] }
    else
      retry m e rest
        { s with trace := s.trace ++ [⟨e.id, e.retries, false, s.now⟩] }

/-- process(): the drain loop `while (this.queue.length > 0) await this.processNext()`.
The loop body never awaits a timer, so iterations share the clock value;
fuel bounds the number of iterations (extra fuel is a no-op once the queue
is empty, exactly as extra loop tests would be). -/
def process (tr : Nat → Nat → Bool) (m : Nat) : Nat → State → State
  | 0, s => s
  | n + 1, s => process tr m n (processNext tr m s)

/-- enqueue(endpoint, data): append a fresh event with retry counter 0.
The generated id and Date.now() timestamp are supplied by the caller. -/
def enqueue (endpoint data : String) (idv tsv : Nat) (s : State) : State :=
  { s with queue := s.queue ++ [⟨idv, endpoint, data, tsv, 0⟩] }

/-- flush(): copy the queue, clear it, send each copied event via the
beacon path; events whose send throws are pushed back, and if any remain
the queue is saved to localStorage.  `beaconOk` tells which sends throw. -/
def flush (beaconOk : QueuedEvent → Bool) (s : State) : State :=
  let eventsToFlush := s.queue
  let s1 : State := { s with
    queue := eventsToFlush.filter (fun e => ! beaconOk e),
    trace := s.trace ++ eventsToFlush.map
      (fun e => ⟨e.id, e.retries, beaconOk e, s.now⟩) }
  if s1.queue.length > 0 then saveToLocalStorage s1 else s1

/-- JSON.parse of the stored text: malformed content throws. -/
def parseSnapshot : StorageContent → Except String (List QueuedEvent)
  | .valid evs => .ok evs
  | .malformed => .error "SyntaxError"

/-- loadFromLocalStorage(): read the key; if present, parse it, append the
parsed events to the queue and remove the key; a parse failure is caught:
warn and remove the key. -/
def loadFromLocalStorage (s : State) : State :=
  match s.storage with
  | none => s
  | some content =>
    match parseSnapshot content with
    | .ok events => { s with queue := s.queue ++ events, storage := none }
    | .error _ => { s with storage := none,
                           warns := s.warns ++ [.corruptedSnapshot] }

/-- The EventQueue constructor: start with an empty queue and run
loadFromLocalStorage against whatever the storage key holds. -/
def construct (storage : Option StorageContent) (now : Nat) : State :=
  loadFromLocalStorage
    { queue := [], storage := storage, trace := [], timers := [],
      warns := [], now := now }

/-- Number of successful deliveries of event id `i` in a trace. -/
def succCount (i : Nat) (tc : List Attempt) : Nat :=
  tc.countP (fun a => a.eventId == i && a.success)

/-- Fuel that always suffices for the head event to leave the queue. -/
def clearFuel (m : Nat) (e : QueuedEvent) : Nat := max (m - e.retries) 1

/-- Fuel that always suffices for every event of `q` to leave the queue. -/
def queueFuel (m : Nat) (q : List QueuedEvent) : Nat :=
  (q.map (clearFuel m)).sum

/-- Every event in the in-memory queue has its retry counter strictly
below maxRetries. -/
def RetryInvariant (m : Nat) (s : State) : Prop :=
  ∀ e ∈ s.queue, e.retries < m

/-- States reachable from `s0` by interleaving enqueue calls with
drain-loop iterations; the first index lists the events enqueued along
the way. -/
inductive Reach (tr : Nat → Nat → Bool) (m : Nat) (s0 : State) :
    List QueuedEvent → State → Prop where
  | refl : Reach tr m s0 [] s0
  | enq (evs : List QueuedEvent) (t : State) (ep d : String) (idv tsv : Nat) :
      Reach tr m s0 evs t →
      Reach tr m s0 (evs ++ [⟨idv, ep, d, tsv, 0⟩]) (enqueue ep d idv tsv t)
  | step (evs : List QueuedEvent) (t : State) :
      Reach tr m s0 evs t → Reach tr m s0 evs (processNext tr m t)

end EventQueue

/-- A transport that rejects every delivery attempt. -/
def trReject : Nat → Nat → Bool := fun _ _ => false

/-- A transport that resolves every delivery attempt. -/
def trAccept : Nat → Nat → Bool := fun _ _ => true

/-- A transport that rejects an event's first attempt (retry counter 0)
and resolves every later attempt. -/
def trAfterOne : Nat → Nat → Bool := fun _ j => decide (1 ≤ j)

/-- A single freshly-enqueued event. -/
def ev1 : QueuedEvent := ⟨1, "/track/", "payload", 0, 0⟩

/-- Queue holding exactly `ev1`, empty storage, clock at 0. -/
def oneEventState : EventQueue.State :=
  { queue := [ev1], storage := none, trace := [], timers := [],
    warns := [], now := 0 }

/-- A queue state with no events and nothing persisted, clock at 0. -/
def emptyQState : EventQueue.State :=
  { queue := [], storage := none, trace := [], timers := [],
    warns := [], now := 0 }

/-- Queue state holding one freshly-enqueued event with id 7. -/
def singleRetryState : EventQueue.State :=
  { queue := [⟨7, "/track/", "x", 0, 0⟩], storage := none, trace := [],
    timers := [], warns := [], now := 0 }

/-- Concrete run for the ordering claim: enqueue two events into an empty
queue, draining one step after each enqueue, with an always-resolving
transport. -/
def orderedRunState : EventQueue.State :=
  EventQueue.processNext trAccept 3
    (EventQueue.enqueue "/track/" "b" 2 0
      (EventQueue.processNext trAccept 3
        (EventQueue.enqueue "/track/" "a" 1 0 emptyQState)))

/- ------------------------------------------------------------------ -/
/- PageStateManager (src/PageStateManager.ts)                          -/
/- ------------------------------------------------------------------ -/

/-- PageLifecycleState from src/types.ts. -/
inductive LifecycleState where
  | active | passive | hidden | frozen | terminated
deriving DecidableEq

/-- document.visibilityState as seen by handleVisibilityChange. -/
inductive Visibility where
  | visible | hidden | other
deriving DecidableEq

/-- The page lifecycle events handlePageLifecycle is registered for. -/
inductive LifecycleEvent where
  | freeze | resume | pageshow | pagehide
deriving DecidableEq

/-- PageState from src/types.ts.  Timestamps and durations are integers
(milliseconds); idleStartTime is nullable. -/
structure PageState where
  state : LifecycleState
  stateStartTime : Int
  activeDuration : Int
  scrollDepth : Int
  maxScrollDepth : Int
  isIdle : Bool
  idleStartTime : Option Int
deriving DecidableEq

namespace PageStateManager

/-- The state set up in the PageStateManager constructor. -/
def initPageState (pageStartTime : Int) : PageState :=
  { state := .active, stateStartTime := pageStartTime, activeDuration := 0,
    scrollDepth := 0, maxScrollDepth := 0, isIdle := false,
    idleStartTime := none }

/-- getActiveDuration(): accumulated activeDuration, plus the running
delta since stateStartTime only when currently active and not idle. -/
def getActiveDuration (st : PageState) (now : Int) : Int :=
  if st.state = .active ∧ st.isIdle = false then
    st.activeDuration + (now - st.stateStartTime)
  else
    st.activeDuration

/-- handleVisibilityChange(): credit elapsed active non-idle time, map the
visibility value to the new lifecycle state, reset stateStartTime. -/
def handleVisibilityChange (st : PageState) (v : Visibility) (now : Int) :
    PageState :=
  let st :=
    if st.state = .active ∧ st.isIdle = false then
      { st with activeDuration := st.activeDuration + (now - st.stateStartTime) }
    else st
  let newState : LifecycleState :=
    match v with
    | .visible => .active
    | .hidden => .hidden
    | .other => .passive
  { st with state := newState, stateStartTime := now }

/-- handlePageLifecycle(): credit elapsed active non-idle time, map the
event type to the new lifecycle state, reset stateStartTime. -/
def handlePageLifecycle (st : PageState) (ev : LifecycleEvent) (now : Int) :
    PageState :=
  let st :=
    if st.state = .active ∧ st.isIdle = false then
      { st with activeDuration := st.activeDuration + (now - st.stateStartTime) }
    else st
  let newState : LifecycleState :=
    match ev with
    | .freeze => .frozen
    | .resume => .active
    | .pageshow => .active
    | .pagehide => .terminated
  { st with state := newState, stateStartTime := now }

/-- Math.round on a nonnegative rational: floor(q + 1/2) (round half up,
as JS Math.round behaves on the nonnegative reals). -/
def jsRound (q : ℚ) : ℤ := (q + 1 / 2).floor

/-- calculateScrollDepth(): window.innerHeight, window.scrollY and
document.documentElement.scrollHeight are nonnegative pixel counts;
pageHeight = 0 yields 0, otherwise
min(Math.round((scrollPosition + windowHeight) / pageHeight * 100), 100). -/
def calculateScrollDepth (scrollPosition windowHeight pageHeight : ℕ) : ℤ :=
  if pageHeight = 0 then 0
  else
    min (jsRound (((scrollPosition : ℚ) + windowHeight) / pageHeight * 100)) 100

/-- handleScroll(): overwrite scrollDepth; raise maxScrollDepth when the
new depth exceeds it. -/
def handleScroll (st : PageState) (scrollPosition windowHeight pageHeight : ℕ) :
    PageState :=
  let depth := calculateScrollDepth scrollPosition windowHeight pageHeight
  let st := { st with scrollDepth := depth }
  if depth > st.maxScrollDepth then { st with maxScrollDepth := depth } else st

/-- handleUserActivity(): clear the idle flag and idle start timestamp if
idle; the idle timer rearm lives in the manager wrapper below.  The
lifecycle state and stateStartTime are not touched. -/
def handleUserActivity (st : PageState) : PageState :=
  if st.isIdle then { st with isIdle := false, idleStartTime := none } else st

/-- The idle timer callback in startIdleTimer(): set the idle flag and
idle start; when currently active, credit elapsed active time up to the
idle instant and pin stateStartTime there. -/
def idleTimerFire (st : PageState) (now : Int) : PageState :=
  let st := { st with isIdle := true, idleStartTime := some now }
  if st.state = .active then
    { st with activeDuration := st.activeDuration + (now - st.stateStartTime),
              stateStartTime := now }
  else st

/-- A PageStateManager instance: the PageState plus the idle timer
(armed flag and absolute fire time) and the configured timeout. -/
structure Manager where
  ps : PageState
  idleTimeout : Int
  timerArmed : Bool
  timerTarget : Int
deriving DecidableEq

/-- resetIdleTimer()/startIdleTimer(): clear any pending timer and arm a
fresh one for `now + idleTimeout`. -/
def rearmTimer (ms : Manager) (now : Int) : Manager :=
  { ms with timerArmed := true, timerTarget := now + ms.idleTimeout }

/-- The PageStateManager constructor: initial state and an armed idle
timer. -/
def initManager (idleTimeout pageStartTime : Int) : Manager :=
  rearmTimer
    { ps := initPageState pageStartTime, idleTimeout := idleTimeout,
      timerArmed := false, timerTarget := 0 } pageStartTime

/-- Host-environment signals driving the manager, each carrying the clock
value at which it is delivered.  A browser scroll event reaches both the
scroll listener and the activity listener. -/
inductive Signal where
  | visibilityChange (v : Visibility) (now : Int)
  | lifecycle (ev : LifecycleEvent) (now : Int)
  | scroll (scrollPosition windowHeight pageHeight : ℕ) (now : Int)
  | activity (now : Int)
  | idleFire (now : Int)
deriving DecidableEq

/-- The clock value a signal carries. -/
def sigTime : Signal → Int
  | .visibilityChange _ now => now
  | .lifecycle _ now => now
  | .scroll _ _ _ now => now
  | .activity now => now
  | .idleFire now => now

/-- Dispatch one signal to the manager, mirroring the listener wiring of
setupEventListeners(): visibility/lifecycle handlers rearm the idle timer
when the new state is active; scroll feeds both handleScroll and
handleUserActivity; activity rearms; the idle timer consumes its arming
when it fires. -/
def applySignal (ms : Manager) : Signal → Manager
  | .visibilityChange v now =>
    let ps := handleVisibilityChange ms.ps v now
    let ms := { ms with ps := ps }
    if ps.state = .active then rearmTimer ms now else ms
  | .lifecycle ev now =>
    let ps := handlePageLifecycle ms.ps ev now
    let ms := { ms with ps := ps }
    if ps.state = .active then rearmTimer ms now else ms
  | .scroll sp wh ph now =>
    rearmTimer { ms with ps := handleUserActivity (handleScroll ms.ps sp wh ph) } now
  | .activity now =>
    rearmTimer { ms with ps := handleUserActivity ms.ps } now
  | .idleFire now =>
    { ms with ps := idleTimerFire ms.ps now, timerArmed := false }

/-- Deliver a list of signals in order. -/
def runSignals (ms : Manager) : List Signal → Manager
  | [] => ms
  | sig :: rest => runSignals (applySignal ms sig) rest

/-- A signal sequence the host environment can actually produce from time
`t`: clock values never go backwards, and the idle timer fires exactly at
its armed target. -/
def validSignals (ms : Manager) (t : Int) : List Signal → Bool
  | [] => true
  | sig :: rest =>
    (decide (t ≤ sigTime sig) &&
      match sig with
      | .idleFire now => ms.timerArmed && decide (now = ms.timerTarget)
      | _ => true) &&
    validSignals (applySignal ms sig) (sigTime sig) rest

end PageStateManager

/-- The signal sequence of the idle-resume scenario: the idle timer fires
at 30000 ms (timeout 30000, page start 0, no earlier activity), then the
user becomes active again at 100000 ms. -/
def idleResumeTrace : List PageStateManager.Signal :=
  [.idleFire 30000, .activity 100000]

/- ------------------------------------------------------------------ -/
/- Tracker (src/Tracker.ts): the unload path                           -/
/- ------------------------------------------------------------------ -/

/-- A key-value record (Record<string, any>), in insertion order. -/
abbrev Props := List (String × String)

namespace Tracker

/-- The orchestrator state the unload path touches: the three layered
property maps, the last event id, and its event queue (endpoint paired
with the flattened event record) plus the persisted snapshot slot. -/
structure State where
  visitorData : Props
  sessionData : Props
  projectData : Props
  lastEventId : Option String
  queue : List (String × Props)
  storage : Option (List (String × Props))
deriving DecidableEq

/-- Key-prefixing used by buildTrackingEvent for one property layer. -/
def tagProps (tag : String) (ps : Props) : Props :=
  ps.map (fun kv => (tag ++ kv.1, kv.2))

/-- buildTrackingEvent(): unprefixed standard fields (project, event,
cookie, timestamp, url, title, domain, uri, duration, scroll_depth —
supplied here as `standard`, they are read from the environment), then
visitor (u_), session (s_), project (p_) and call-specific (e_)
properties. -/
def buildTrackingEvent (ts : State) (standard eventProps : Props) : Props :=
  standard ++ tagProps "u_" ts.visitorData ++ tagProps "s_" ts.sessionData
    ++ tagProps "p_" ts.projectData ++ tagProps "e_" eventProps

/-- sendFinalEvent(): build the page_unload event and enqueue it — as an
update when a last event id exists, as a fresh track event otherwise. -/
def sendFinalEvent (ts : State) (standard finalProps : Props) : State :=
  let finalEvent := buildTrackingEvent ts standard finalProps
  match ts.lastEventId with
  | some _ => { ts with queue := ts.queue ++ [("/update", finalEvent)] }
  | none => { ts with queue := ts.queue ++ [("/track/", finalEvent)] }

/-- EventQueue.flush() as seen from the orchestrator: every queued event
is handed to the beacon path; the ones whose send throws are collected
back and, if any, written to storage; the in-memory queue keeps exactly
the failed ones. -/
def flushQueue (beaconOk : String × Props → Bool) (ts : State) : State :=
  let failed := ts.queue.filter (fun ev => ! beaconOk ev)
  { ts with queue := failed,
            storage := if failed.length > 0 then some failed else ts.storage }

/-- clearSessionProperties(): this.sessionData = {}. -/
def clearSessionProperties (ts : State) : State :=
  { ts with sessionData := [] }

/-- detectSessionEnd(): clear session properties, keep project ones. -/
def detectSessionEnd (ts : State) : State :=
  clearSessionProperties ts

/-- The unload handler registered by handlePageUnload(): send the final
event, flush the queue, detect session end; the whole body sits in a
try/catch so no exception propagates (each modelled step is total). -/
def unloadHandler (beaconOk : String × Props → Bool)
    (ts : State) (standard finalProps : Props) : State :=
  detectSessionEnd (flushQueue beaconOk (sendFinalEvent ts standard finalProps))

end Tracker

/- ------------------------------------------------------------------ -/
/- Helper lemmas about the EventQueue drain loop                       -/
/- ------------------------------------------------------------------ -/

namespace EventQueue

theorem process_succ (tr : Nat → Nat → Bool) (m n : Nat) (s : State) :
    process tr m (n + 1) s = process tr m n (processNext tr m s) := rfl

theorem process_add (tr : Nat → Nat → Bool) (m : Nat) (a b : Nat) (s : State) :
    process tr m (a + b) s = process tr m b (process tr m a s) := by
  induction a generalizing s with
  | zero => rw [Nat.zero_add]; rfl
  | succ a ih =>
    have h : a + 1 + b = (a + b) + 1 := by omega
    rw [h, process_succ, ih, process_succ]

/-- One drain-loop iteration only appends attempts for events currently in
the queue, and never introduces new event ids into the queue. -/
theorem processNext_facts (tr : Nat → Nat → Bool) (m : Nat) (s : State) :
    ∃ tc, (processNext tr m s).trace = s.trace ++ tc ∧
      (∀ a ∈ tc, a.eventId ∈ s.queue.map QueuedEvent.id) ∧
      ∀ i ∈ (processNext tr m s).queue.map QueuedEvent.id,
        i ∈ s.queue.map QueuedEvent.id := by
  cases hq : s.queue with
  | nil =>
    exact ⟨[], by simp [processNext, hq], by simp, by simp [processNext, hq]⟩
  | cons e rest =>
    by_cases htr : tr e.id e.retries = true
    · refine ⟨[⟨e.id, e.retries, true, s.now⟩], ?_, ?_, ?_⟩
      · simp [processNext, hq, htr]
      · simp
      · have hq2 : (processNext tr m s).queue = rest := by
          simp [processNext, hq, htr]
        rw [hq2]
        intro i hi
        rw [List.map_cons]
        exact List.mem_cons_of_mem _ hi
    · rw [Bool.not_eq_true] at htr
      by_cases hm : m ≤ e.retries + 1
      · refine ⟨[⟨e.id, e.retries, false, s.now⟩], ?_, ?_, ?_⟩
        · simp [processNext, hq, htr, retry, hm, saveToLocalStorage]
        · simp
        · have hq2 : (processNext tr m s).queue = rest := by
            simp [processNext, hq, htr, retry, hm, saveToLocalStorage]
          rw [hq2]
          intro i hi
          rw [List.map_cons]
          exact List.mem_cons_of_mem _ hi
      · refine ⟨[⟨e.id, e.retries, false, s.now⟩], ?_, ?_, ?_⟩
        · simp [processNext, hq, htr, retry, hm]
        · simp
        · have hq2 : (processNext tr m s).queue =
              { e with retries := e.retries + 1 } :: rest := by
            simp [processNext, hq, htr, retry, hm]
          rw [hq2]
          intro i hi
          exact hi

/-- The drain loop only appends attempts for events that were in the
queue, and never introduces new event ids into the queue. -/
theorem process_facts (tr : Nat → Nat → Bool) (m : Nat) :
    ∀ (n : Nat) (s : State),
    ∃ tc, (process tr m n s).trace = s.trace ++ tc ∧
      (∀ a ∈ tc, a.eventId ∈ s.queue.map QueuedEvent.id) ∧
      ∀ i ∈ (process tr m n s).queue.map QueuedEvent.id,
        i ∈ s.queue.map QueuedEvent.id := by
  intro n
  induction n with
  | zero => intro s; exact ⟨[], by simp [process], by simp, by simp [process]⟩
  | succ n ih =>
    intro s
    obtain ⟨tc0, h1, h2, h3⟩ := processNext_facts tr m s
    obtain ⟨tc1, g1, g2, g3⟩ := ih (processNext tr m s)
    refine ⟨tc0 ++ tc1, ?_, ?_, ?_⟩
    · rw [process_succ, g1, h1, List.append_assoc]
    · intro a ha
      rcases List.mem_append.mp ha with h | h
      · exact h2 a h
      · exact h3 _ (g2 a h)
    · intro i hi
      exact h3 _ (g3 i (by rw [← process_succ]; exact hi))

/-- Whatever the transport decides, the head event leaves the queue within
`clearFuel` iterations, and the attempts made meanwhile are all its own. -/
theorem head_clears (tr : Nat → Nat → Bool) (m : Nat) :
    ∀ (d : Nat) (e : QueuedEvent) (rest : List QueuedEvent) (s : State),
    s.queue = e :: rest → m - e.retries ≤ d + 1 →
    ∃ n, 1 ≤ n ∧ n ≤ d + 1 ∧ (process tr m n s).queue = rest ∧
      ∃ tc, (process tr m n s).trace = s.trace ++ tc ∧
        ∀ a ∈ tc, a.eventId = e.id := by
  intro d
  induction d with
  | zero =>
    intro e rest s hq hd
    refine ⟨1, le_refl 1, le_refl 1, ?_, ?_⟩
    · by_cases htr : tr e.id e.retries = true
      · simp [process, processNext, hq, htr]
      · rw [Bool.not_eq_true] at htr
        have hm : m ≤ e.retries + 1 := by omega
        simp [process, processNext, hq, htr, retry, hm, saveToLocalStorage]
    · by_cases htr : tr e.id e.retries = true
      · exact ⟨[⟨e.id, e.retries, true, s.now⟩],
          by simp [process, processNext, hq, htr], by simp⟩
      · rw [Bool.not_eq_true] at htr
        have hm : m ≤ e.retries + 1 := by omega
        exact ⟨[⟨e.id, e.retries, false, s.now⟩],
          by simp [process, processNext, hq, htr, retry, hm, saveToLocalStorage],
          by simp⟩
  | succ d ih =>
    intro e rest s hq hd
    by_cases htr : tr e.id e.retries = true
    · refine ⟨1, le_refl 1, by omega, ?_, ?_⟩
      · simp [process, processNext, hq, htr]
      · exact ⟨[⟨e.id, e.retries, true, s.now⟩],
          by simp [process, processNext, hq, htr], by simp⟩
    · rw [Bool.not_eq_true] at htr
      by_cases hm : m ≤ e.retries + 1
      · refine ⟨1, le_refl 1, by omega, ?_, ?_⟩
        · simp [process, processNext, hq, htr, retry, hm, saveToLocalStorage]
        · exact ⟨[⟨e.id, e.retries, false, s.now⟩],
            by simp [process, processNext, hq, htr, retry, hm, saveToLocalStorage],
            by simp⟩
      · have hq' : (processNext tr m s).queue =
            { e with retries := e.retries + 1 } :: rest := by
          simp [processNext, hq, htr, retry, hm]
        have htc : (processNext tr m s).trace =
            s.trace ++ [⟨e.id, e.retries, false, s.now⟩] := by
          simp [processNext, hq, htr, retry, hm]
        obtain ⟨n, h1, h2, h3, tc, h4, h5⟩ :=
          ih { e with retries := e.retries + 1 } rest (processNext tr m s) hq'
            (by show m - (e.retries + 1) ≤ d + 1; omega)
        refine ⟨n + 1, by omega, by omega, ?_, ?_⟩
        · rw [process_succ]; exact h3
        · refine ⟨⟨e.id, e.retries, false, s.now⟩ :: tc, ?_, ?_⟩
          · rw [process_succ, h4, htc, List.append_assoc]; rfl
          · intro a ha
            rcases List.mem_cons.mp ha with h | h
            · rw [h]
            · exact h5 a h

/-- Whatever the transport decides, a whole prefix of the queue is gone
within `queueFuel` iterations, the attempts made meanwhile being all on
events of that prefix. -/
theorem clear_many (tr : Nat → Nat → Bool) (m : Nat) :
    ∀ (q1 q2 : List QueuedEvent) (s : State),
    s.queue = q1 ++ q2 →
    ∃ n, n ≤ queueFuel m q1 ∧ (process tr m n s).queue = q2 ∧
      ∃ tc, (process tr m n s).trace = s.trace ++ tc ∧
        ∀ a ∈ tc, a.eventId ∈ q1.map QueuedEvent.id := by
  intro q1
  induction q1 with
  | nil =>
    intro q2 s hq
    exact ⟨0, by simp [queueFuel], by simpa [process] using hq, [], by simp [process], by simp⟩
  | cons x q1 ih =>
    intro q2 s hq
    obtain ⟨n1, hn1a, hn1b, hn1c, tc1, ht1, hi1⟩ :=
      head_clears tr m (clearFuel m x - 1) x (q1 ++ q2) s hq
        (by unfold clearFuel; omega)
    have hb1 : n1 ≤ clearFuel m x := by
      have : 1 ≤ clearFuel m x := by unfold clearFuel; omega
      omega
    obtain ⟨n2, hn2a, hn2b, tc2, ht2, hi2⟩ :=
      ih q2 (process tr m n1 s) hn1c
    refine ⟨n1 + n2, ?_, ?_, ?_⟩
    · have : queueFuel m (x :: q1) = clearFuel m x + queueFuel m q1 := by
        simp [queueFuel]
      omega
    · rw [process_add]; exact hn2b
    · refine ⟨tc1 ++ tc2, ?_, ?_⟩
      · rw [process_add, ht2, ht1, List.append_assoc]
      · intro a ha
        rcases List.mem_append.mp ha with h | h
        · rw [hi1 a h, List.map_cons]
          exact List.mem_cons_self _ _
        · rw [List.map_cons]
          exact List.mem_cons_of_mem _ (hi2 a h)

/-- If the transport rejects the head event's attempts for retry counters
below `k` and resolves the attempt at counter `k < maxRetries`, the head
is delivered exactly once, removed, and neither storage nor the warning
log changes. -/
theorem head_succ (tr : Nat → Nat → Bool) (m k : Nat) :
    ∀ (d : Nat) (e : QueuedEvent) (rest : List QueuedEvent) (s : State),
    s.queue = e :: rest → k - e.retries ≤ d → e.retries ≤ k → k < m →
    (∀ j, e.retries ≤ j → j < k → tr e.id j = false) → tr e.id k = true →
    ∃ n, n ≤ d + 1 ∧ (process tr m n s).queue = rest ∧
      (process tr m n s).storage = s.storage ∧
      (process tr m n s).warns = s.warns ∧
      ∃ tc, (process tr m n s).trace = s.trace ++ tc ∧
        (∀ a ∈ tc, a.eventId = e.id) ∧ succCount e.id tc = 1 := by
  intro d
  induction d with
  | zero =>
    intro e rest s hq hkd hek hkm hrej hacc
    have heq : e.retries = k := by omega
    have htr : tr e.id e.retries = true := by rw [heq]; exact hacc
    refine ⟨1, le_refl 1, ?_, ?_, ?_, ?_⟩
    · simp [process, processNext, hq, htr]
    · simp [process, processNext, hq, htr]
    · simp [process, processNext, hq, htr]
    · refine ⟨[⟨e.id, e.retries, true, s.now⟩],
        by simp [process, processNext, hq, htr], by simp, ?_⟩
      simp [succCount]
  | succ d ih =>
    intro e rest s hq hkd hek hkm hrej hacc
    by_cases heq : e.retries = k
    · have htr : tr e.id e.retries = true := by rw [heq]; exact hacc
      refine ⟨1, by omega, ?_, ?_, ?_, ?_⟩
      · simp [process, processNext, hq, htr]
      · simp [process, processNext, hq, htr]
      · simp [process, processNext, hq, htr]
      · refine ⟨[⟨e.id, e.retries, true, s.now⟩],
          by simp [process, processNext, hq, htr], by simp, ?_⟩
        simp [succCount]
    · have hlt : e.retries < k := by omega
      have hrej0 : tr e.id e.retries = false := hrej e.retries (le_refl _) hlt
      have hm : ¬ m ≤ e.retries + 1 := by omega
      have hq' : (processNext tr m s).queue =
          { e with retries := e.retries + 1 } :: rest := by
        simp [processNext, hq, hrej0, retry, hm]
      have hst : (processNext tr m s).storage = s.storage := by
        simp [processNext, hq, hrej0, retry, hm]
      have hw : (processNext tr m s).warns = s.warns := by
        simp [processNext, hq, hrej0, retry, hm]
      have htc : (processNext tr m s).trace =
          s.trace ++ [⟨e.id, e.retries, false, s.now⟩] := by
        simp [processNext, hq, hrej0, retry, hm]
      obtain ⟨n, h1, h2, h3, h4, tc, h5, h6, h7⟩ :=
        ih { e with retries := e.retries + 1 } rest (processNext tr m s) hq'
          (by show k - (e.retries + 1) ≤ d; omega)
          (by show e.retries + 1 ≤ k; omega) hkm
          (by intro j hj1 hj2
              have hj1' : e.retries + 1 ≤ j := hj1
              exact hrej j (by omega) hj2) hacc
      refine ⟨n + 1, by omega, ?_, ?_, ?_, ?_⟩
      · rw [process_succ]; exact h2
      · rw [process_succ, h3, hst]
      · rw [process_succ, h4, hw]
      · refine ⟨⟨e.id, e.retries, false, s.now⟩ :: tc, ?_, ?_, ?_⟩
        · rw [process_succ, h5, htc, List.append_assoc]; rfl
        · intro a ha
          rcases List.mem_cons.mp ha with h | h
          · rw [h]
          · exact h6 a h
        · simp only [succCount, List.countP_cons] at h7 ⊢
          simp [h7]

/-- succCount is additive over trace concatenation. -/
theorem succCount_append (i : Nat) (a b : List Attempt) :
    succCount i (a ++ b) = succCount i a + succCount i b :=
  List.countP_append _ _ _

/-- A trace whose attempts all concern other events contributes no
successful deliveries of `i`. -/
theorem succCount_eq_zero (i : Nat) (tc : List Attempt)
    (h : ∀ a ∈ tc, a.eventId ≠ i) : succCount i tc = 0 := by
  refine List.countP_eq_zero.mpr ?_
  intro a ha
  simp [h a ha]

end EventQueue

/- ------------------------------------------------------------------ -/
/- Claim theorems about the EventQueue                                 -/
/- ------------------------------------------------------------------ -/

namespace EventQueue

/-- C1: the scenario of the claim — a single-event queue whose transport
rejects every attempt, with maxRetries = 3.  After the drain the retries
are exhausted: the event is absent from the in-memory queue and the
"failed after 3 retries" warning is emitted, but the snapshot written to
localStorage is the queue AFTER the exhausted event was shifted off — it
holds zero serialized events, not one; the exhausted event is not in the
persisted snapshot. -/
theorem exhausted_event_absent_from_snapshot :
    (process trReject 3 10 oneEventState).queue = [] ∧
    (process trReject 3 10 oneEventState).warns = [.failedAfterRetries 1 3] ∧
    (process trReject 3 10 oneEventState).storage = some (.valid []) := by
  decide

/-- C4: the same single-event always-rejecting run, started at clock 0.
retry() schedules backoff timers for absolute times 1000 and 2000 (the
schedule entries for the first and second retry), but the drain loop
issues all three delivery attempts at clock 0: the second and third
attempts on the head event are made before the scheduled backoff delay
has elapsed, i.e. the loop busy-retries the head. -/
theorem attempts_issued_before_backoff :
    (process trReject 3 10 oneEventState).trace.map Attempt.time = [0, 0, 0] ∧
    (process trReject 3 10 oneEventState).timers = [1000, 2000] ∧
    retryDelay 1 = 1000 := by
  decide

/-- C2: an enqueued event (retry counter 0, unique id) anywhere in the
queue whose transport rejects its first k < maxRetries attempts and then
resolves is handed to the transport successfully exactly once, and is
afterwards no longer in the in-memory queue, for any sufficiently long
drain. -/
theorem retried_event_delivered_exactly_once
    (tr : Nat → Nat → Bool) (m k : Nat) (e : QueuedEvent)
    (q1 q2 : List QueuedEvent) (s : State)
    (hq : s.queue = q1 ++ e :: q2) (hr : e.retries = 0) (hkm : k < m)
    (hrej : ∀ j, j < k → tr e.id j = false) (hacc : tr e.id k = true)
    (hq1 : e.id ∉ q1.map QueuedEvent.id) (hq2 : e.id ∉ q2.map QueuedEvent.id)
    (ht0 : succCount e.id s.trace = 0) :
    ∀ n, queueFuel m q1 + (k + 1) ≤ n →
      succCount e.id (process tr m n s).trace = 1 ∧
      e.id ∉ (process tr m n s).queue.map QueuedEvent.id := by
  intro n hn
  obtain ⟨n1, hn1, hQ1, tc1, hT1, hI1⟩ := clear_many tr m q1 (e :: q2) s hq
  obtain ⟨n2, hn2, hQ2, _, _, tc2, hT2, hI2, hC2⟩ :=
    head_succ tr m k k e q2 (process tr m n1 s) hQ1 (by omega) (by omega) hkm
      (fun j _ hj => hrej j hj) hacc
  have hsplit : n = (n1 + n2) + (n - (n1 + n2)) := by omega
  obtain ⟨tc3, hT3, hI3, hQ3⟩ :=
    process_facts tr m (n - (n1 + n2)) (process tr m n2 (process tr m n1 s))
  constructor
  · rw [hsplit, process_add, process_add, hT3, hT2, hT1]
    rw [List.append_assoc, List.append_assoc]
    rw [succCount_append, succCount_append, succCount_append]
    have z1 : succCount e.id tc1 = 0 := by
      refine succCount_eq_zero _ _ ?_
      intro a ha hcontra
      exact hq1 (hcontra ▸ hI1 a ha)
    have z3 : succCount e.id tc3 = 0 := by
      refine succCount_eq_zero _ _ ?_
      intro a ha hcontra
      have hmem := hI3 a ha
      rw [hQ2] at hmem
      exact hq2 (hcontra ▸ hmem)
    omega
  · rw [hsplit, process_add, process_add]
    intro hmem
    have hsub := hQ3 _ hmem
    rw [hQ2] at hsub
    exact hq2 hsub

/-- Witness for C2: id 7, rejected once then accepted, maxRetries 3. -/
theorem retried_event_delivered_exactly_once_witness :
    succCount 7 (process trAfterOne 3 10 singleRetryState).trace = 1 ∧
    7 ∉ (process trAfterOne 3 10 singleRetryState).queue.map QueuedEvent.id :=
  retried_event_delivered_exactly_once trAfterOne 3 1
    (⟨7, "/track/", "x", 0, 0⟩ : QueuedEvent) [] [] singleRetryState rfl rfl
    (by decide) (by decide) (by decide) (by decide) (by decide) rfl
    10 (by decide)

/-- C5: with an always-resolving transport, in every state reachable from
an empty queue by interleaving enqueues and drain-loop iterations, the
attempts already observed by the transport followed by the ids still
queued are exactly the enqueued ids in enqueue order, and every observed
attempt succeeded — so the transport observes events in exactly the order
they were enqueued and no later event overtakes an earlier one. -/
theorem attempts_follow_enqueue_order
    (tr : Nat → Nat → Bool) (m : Nat) (s0 : State)
    (evs : List QueuedEvent) (t : State)
    (htr : ∀ i j, tr i j = true) (h0q : s0.queue = []) (h0t : s0.trace = [])
    (h : Reach tr m s0 evs t) :
    t.trace.map Attempt.eventId ++ t.queue.map QueuedEvent.id =
      evs.map QueuedEvent.id ∧
    ∀ a ∈ t.trace, a.success = true := by
  induction h with
  | refl => simp [h0q, h0t]
  | enq evs1 t1 ep d idv tsv hr ih =>
    obtain ⟨ih1, ih2⟩ := ih
    constructor
    · rw [List.map_append]
      show t1.trace.map Attempt.eventId ++
        (t1.queue ++ [(⟨idv, ep, d, tsv, 0⟩ : QueuedEvent)]).map QueuedEvent.id =
        evs1.map QueuedEvent.id ++ [idv]
      rw [List.map_append, ← List.append_assoc, ih1]
      rfl
    · exact ih2
  | step evs1 t1 hr ih =>
    obtain ⟨ih1, ih2⟩ := ih
    cases hq : t1.queue with
    | nil =>
      have hsame : processNext tr m t1 = t1 := by simp [processNext, hq]
      rw [hsame]
      exact ⟨ih1, ih2⟩
    | cons e rest =>
      have htre : tr e.id e.retries = true := htr e.id e.retries
      have hqn : (processNext tr m t1).queue = rest := by
        simp [processNext, hq, htre]
      have htn : (processNext tr m t1).trace =
          t1.trace ++ [⟨e.id, e.retries, true, t1.now⟩] := by
        simp [processNext, hq, htre]
      constructor
      · rw [htn, hqn, List.map_append, List.append_assoc]
        rw [hq] at ih1
        rw [← ih1]
        rfl
      · intro a ha
        rw [htn] at ha
        rcases List.mem_append.mp ha with hmem | hmem
        · exact ih2 a hmem
        · rw [List.mem_singleton.mp hmem]

/-- Witness for C5: two events enqueued and drained alternately with an
always-resolving transport; the transport saw ids 1 then 2. -/
theorem attempts_follow_enqueue_order_witness :
    orderedRunState.trace.map Attempt.eventId ++
      orderedRunState.queue.map QueuedEvent.id = [1, 2] ∧
    ∀ a ∈ orderedRunState.trace, a.success = true :=
  attempts_follow_enqueue_order trAccept 3 emptyQState _ _
    (fun _ _ => rfl) rfl rfl
    (Reach.step _ _ (Reach.enq _ _ "/track/" "b" 2 0
      (Reach.step _ _ (Reach.enq _ _ "/track/" "a" 1 0 Reach.refl))))

/-- C7: EventQueue construction against every storage content.  Missing
key: empty queue, nothing written.  Valid snapshot: its events are
appended (exactly once) and the key is cleared immediately, so a second
construction finds no events.  Malformed snapshot: the parse error is
caught — the snapshot is discarded, the key cleared, a warning recorded,
and construction still returns a (empty-queue) state. -/
theorem construct_loads_once_and_clears :
    (∀ now : Nat, (construct none now).queue = [] ∧
      (construct none now).storage = none ∧ (construct none now).warns = []) ∧
    (∀ (evs : List QueuedEvent) (now now2 : Nat),
      (construct (some (.valid evs)) now).queue = evs ∧
      (construct (some (.valid evs)) now).storage = none ∧
      (construct (some (.valid evs)) now).warns = [] ∧
      (construct ((construct (some (.valid evs)) now).storage) now2).queue = []) ∧
    (∀ now : Nat, (construct (some .malformed) now).queue = [] ∧
      (construct (some .malformed) now).storage = none ∧
      (construct (some .malformed) now).warns = [.corruptedSnapshot]) := by
  refine ⟨?_, ?_, ?_⟩ <;> intros <;>
    simp [construct, loadFromLocalStorage, parseSnapshot]

/-- C10: with maxRetries ≥ 1, a queue constructed with no pre-existing
snapshot satisfies the invariant that every queued event has its retry
counter strictly below maxRetries, and enqueue, drain-loop iterations and
flush all preserve that invariant (an event reaching maxRetries is
removed within the same retry step). -/
theorem retry_invariant_preserved (m now0 : Nat) (hm : 1 ≤ m) :
    RetryInvariant m (construct none now0) ∧
    (∀ (s : State) (ep d : String) (idv tsv : Nat),
      RetryInvariant m s → RetryInvariant m (enqueue ep d idv tsv s)) ∧
    (∀ (tr : Nat → Nat → Bool) (s : State),
      RetryInvariant m s → RetryInvariant m (processNext tr m s)) ∧
    (∀ (b : QueuedEvent → Bool) (s : State),
      RetryInvariant m s → RetryInvariant m (flush b s)) := by
  refine ⟨?_, ?_, ?_, ?_⟩
  · intro e he
    simp [construct, loadFromLocalStorage] at he
  · intro s ep d idv tsv hinv e he
    simp only [enqueue] at he
    rcases List.mem_append.mp he with h | h
    · exact hinv e h
    · rw [List.mem_singleton.mp h]
      show 0 < m
      omega
  · intro tr s hinv
    cases hq : s.queue with
    | nil =>
      intro e he
      have hsame : processNext tr m s = s := by simp [processNext, hq]
      rw [hsame] at he
      exact hinv e he
    | cons x rest =>
      intro e he
      by_cases htr : tr x.id x.retries = true
      · have hqn : (processNext tr m s).queue = rest := by
          simp [processNext, hq, htr]
        rw [hqn] at he
        exact hinv e (by rw [hq]; exact List.mem_cons_of_mem _ he)
      · rw [Bool.not_eq_true] at htr
        by_cases hmm : m ≤ x.retries + 1
        · have hqn : (processNext tr m s).queue = rest := by
            simp [processNext, hq, htr, retry, hmm, saveToLocalStorage]
          rw [hqn] at he
          exact hinv e (by rw [hq]; exact List.mem_cons_of_mem _ he)
        · have hqn : (processNext tr m s).queue =
              { x with retries := x.retries + 1 } :: rest := by
            simp [processNext, hq, htr, retry, hmm]
          rw [hqn] at he
          rcases List.mem_cons.mp he with h | h
          · rw [h]
            show x.retries + 1 < m
            omega
          · exact hinv e (by rw [hq]; exact List.mem_cons_of_mem _ h)
  · intro b s hinv e he
    have hqn : (flush b s).queue = s.queue.filter (fun x => ! b x) := by
      simp only [flush]
      split <;> rfl
    rw [hqn] at he
    exact hinv e (List.mem_of_mem_filter he)

/-- Witness for C10: maxRetries 3, fresh construction at clock 0. -/
theorem retry_invariant_preserved_witness :
    1 ≤ 3 ∧ RetryInvariant 3 (construct none 0) :=
  ⟨by decide, (retry_invariant_preserved 3 0 (by decide)).1⟩

end EventQueue

/- ------------------------------------------------------------------ -/
/- Claim theorems about the PageStateManager                           -/
/- ------------------------------------------------------------------ -/

namespace PageStateManager

theorem calculateScrollDepth_nonneg (sp wh ph : ℕ) :
    0 ≤ calculateScrollDepth sp wh ph := by
  unfold calculateScrollDepth
  split
  · exact le_refl 0
  · refine le_min ?_ (by norm_num)
    unfold jsRound
    refine Rat.le_floor.mpr ?_
    push_cast
    have h1 : (0:ℚ) ≤ ((sp:ℚ) + wh) / ph * 100 := by positivity
    linarith

theorem calculateScrollDepth_le (sp wh ph : ℕ) :
    calculateScrollDepth sp wh ph ≤ 100 := by
  unfold calculateScrollDepth
  split
  · norm_num
  · exact min_le_right _ _

/-- Each signal either leaves scrollDepth unchanged or overwrites it with
a freshly computed depth. -/
theorem applySignal_scrollDepth (ms : Manager) (sig : Signal) :
    (applySignal ms sig).ps.scrollDepth = ms.ps.scrollDepth ∨
    ∃ sp wh ph, (applySignal ms sig).ps.scrollDepth =
      calculateScrollDepth sp wh ph := by
  cases sig with
  | visibilityChange v now =>
    left
    simp only [applySignal]
    split <;> simp [rearmTimer, handleVisibilityChange] <;> split <;> rfl
  | lifecycle ev now =>
    left
    simp only [applySignal]
    split <;> simp [rearmTimer, handlePageLifecycle] <;> split <;> rfl
  | scroll sp wh ph now =>
    right
    refine ⟨sp, wh, ph, ?_⟩
    simp only [applySignal, rearmTimer]
    simp [handleUserActivity, handleScroll]
    split <;> split <;> rfl
  | activity now =>
    left
    simp only [applySignal, rearmTimer]
    simp [handleUserActivity]
    split <;> rfl
  | idleFire now =>
    left
    simp only [applySignal]
    simp [idleTimerFire]
    split <;> rfl

theorem runSignals_scrollDepth_bounded (sigs : List Signal) :
    ∀ ms : Manager, 0 ≤ ms.ps.scrollDepth → ms.ps.scrollDepth ≤ 100 →
    0 ≤ (runSignals ms sigs).ps.scrollDepth ∧
      (runSignals ms sigs).ps.scrollDepth ≤ 100 := by
  induction sigs with
  | nil => intro ms h1 h2; exact ⟨h1, h2⟩
  | cons sig rest ih =>
    intro ms h1 h2
    rcases applySignal_scrollDepth ms sig with h | ⟨sp, wh, ph, h⟩
    · exact ih (applySignal ms sig) (h ▸ h1) (h ▸ h2)
    · exact ih (applySignal ms sig)
        (by rw [h]; exact calculateScrollDepth_nonneg sp wh ph)
        (by rw [h]; exact calculateScrollDepth_le sp wh ph)

/-- C6: for every scroll offset, viewport height and document height the
computed depth lies in [0, 100]; a document height of 0 yields depth 0;
and along every signal sequence from a freshly constructed manager the
scrollDepth field stays within [0, 100]. -/
theorem scroll_depth_always_in_range :
    (∀ sp wh ph : ℕ, 0 ≤ calculateScrollDepth sp wh ph ∧
      calculateScrollDepth sp wh ph ≤ 100) ∧
    (∀ sp wh : ℕ, calculateScrollDepth sp wh 0 = 0) ∧
    (∀ (idleTimeout pageStart : Int) (sigs : List Signal),
      0 ≤ (runSignals (initManager idleTimeout pageStart) sigs).ps.scrollDepth ∧
      (runSignals (initManager idleTimeout pageStart) sigs).ps.scrollDepth ≤ 100) := by
  refine ⟨?_, ?_, ?_⟩
  · intro sp wh ph
    exact ⟨calculateScrollDepth_nonneg sp wh ph, calculateScrollDepth_le sp wh ph⟩
  · intro sp wh
    simp [calculateScrollDepth]
  · intro idleTimeout pageStart sigs
    exact runSignals_scrollDepth_bounded sigs _ (by norm_num [initManager, rearmTimer, initPageState]) (by norm_num [initManager, rearmTimer, initPageState])

/-- handleScroll raises maxScrollDepth to the maximum of its old value
and the new depth. -/
theorem handleScroll_max (st : PageState) (sp wh ph : ℕ) :
    (handleScroll st sp wh ph).maxScrollDepth =
      max st.maxScrollDepth (calculateScrollDepth sp wh ph) := by
  unfold handleScroll
  dsimp only
  split
  · rename_i h
    simp only [] at h ⊢
    omega
  · rename_i h
    simp only [] at h ⊢
    omega

theorem handleUserActivity_max (st : PageState) :
    (handleUserActivity st).maxScrollDepth = st.maxScrollDepth := by
  unfold handleUserActivity
  split <;> rfl

/-- No signal ever lowers maxScrollDepth. -/
theorem applySignal_max_mono (ms : Manager) (sig : Signal) :
    ms.ps.maxScrollDepth ≤ (applySignal ms sig).ps.maxScrollDepth := by
  cases sig with
  | visibilityChange v now =>
    have h : (applySignal ms (.visibilityChange v now)).ps.maxScrollDepth =
        ms.ps.maxScrollDepth := by
      simp only [applySignal]
      split <;> simp [rearmTimer, handleVisibilityChange] <;> split <;> rfl
    omega
  | lifecycle ev now =>
    have h : (applySignal ms (.lifecycle ev now)).ps.maxScrollDepth =
        ms.ps.maxScrollDepth := by
      simp only [applySignal]
      split <;> simp [rearmTimer, handlePageLifecycle] <;> split <;> rfl
    omega
  | scroll sp wh ph now =>
    have h : (applySignal ms (.scroll sp wh ph now)).ps.maxScrollDepth =
        max ms.ps.maxScrollDepth (calculateScrollDepth sp wh ph) := by
      show (handleUserActivity (handleScroll ms.ps sp wh ph)).maxScrollDepth = _
      rw [handleUserActivity_max, handleScroll_max]
    omega
  | activity now =>
    have h : (applySignal ms (.activity now)).ps.maxScrollDepth =
        ms.ps.maxScrollDepth := by
      show (handleUserActivity ms.ps).maxScrollDepth = _
      rw [handleUserActivity_max]
    omega
  | idleFire now =>
    have h : (applySignal ms (.idleFire now)).ps.maxScrollDepth =
        ms.ps.maxScrollDepth := by
      simp only [applySignal]
      simp [idleTimerFire]
      split <;> rfl
    omega

/-- C8: after a scroll signal the maximum scroll depth equals
max(previous maximum, computed depth); no single manager operation ever
decreases it; hence it is monotonically non-decreasing along every signal
sequence. -/
theorem max_scroll_depth_monotone :
    (∀ (st : PageState) (sp wh ph : ℕ),
      (handleScroll st sp wh ph).maxScrollDepth =
        max st.maxScrollDepth (calculateScrollDepth sp wh ph)) ∧
    (∀ (ms : Manager) (sig : Signal),
      ms.ps.maxScrollDepth ≤ (applySignal ms sig).ps.maxScrollDepth) ∧
    (∀ (ms : Manager) (sigs : List Signal),
      ms.ps.maxScrollDepth ≤ (runSignals ms sigs).ps.maxScrollDepth) := by
  refine ⟨handleScroll_max, applySignal_max_mono, ?_⟩
  intro ms sigs
  induction sigs generalizing ms with
  | nil => exact le_refl _
  | cons sig rest ih =>
    exact le_trans (applySignal_max_mono ms sig) (ih (applySignal ms sig))

/-- C3: a host-producible counterexample trace.  Idle timeout 30000 ms,
page start 0, no activity until the idle timer fires at 30000 (validated
by validSignals), then user activity at 100000 clears the idle flag
without moving stateStartTime.  getActiveDuration at 100000 returns
100000: the 70000 ms idle interval [30000, 100000] is counted once
activity resumes, where the claim requires it excluded (expected 30000). -/
theorem idle_interval_counted_after_resume :
    validSignals (initManager 30000 0) 0 idleResumeTrace = true ∧
    (runSignals (initManager 30000 0) idleResumeTrace).ps.isIdle = false ∧
    (runSignals (initManager 30000 0) idleResumeTrace).ps.idleStartTime = none ∧
    getActiveDuration (runSignals (initManager 30000 0) idleResumeTrace).ps
      100000 = 100000 := by
  decide

end PageStateManager

/- ------------------------------------------------------------------ -/
/- Claim theorem about the Tracker unload path                         -/
/- ------------------------------------------------------------------ -/

namespace Tracker

/-- C9: after the unload handler runs — final event enqueued, queue
flushed (with any beacon outcome), session end detected — the
session-scoped property map is empty while the project-scoped and
visitor property maps are exactly what they were before; the handler is a
total function (its body is wrapped in try/catch in the source), so no
exception escapes it. -/
theorem unload_clears_session_keeps_project
    (beaconOk : String × Props → Bool) (ts : State)
    (standard finalProps : Props) :
    (unloadHandler beaconOk ts standard finalProps).sessionData = [] ∧
    (unloadHandler beaconOk ts standard finalProps).projectData =
      ts.projectData ∧
    (unloadHandler beaconOk ts standard finalProps).visitorData =
      ts.visitorData := by
  unfold unloadHandler detectSessionEnd clearSessionProperties flushQueue
    sendFinalEvent
  cases ts.lastEventId <;> simp

end Tracker

end Penrose
